import Mathlib

/-!
# Verification of the Secret Santa assignment engine and record loaders

Shallow embedding of `src/models/secret_santa_model.py` (class
`SecretSantaModel`): the constrained-random-permutation generator
`generate_assignments` and the two CSV-record loaders
`load_employees_from_csv` and `load_last_year_assignments`.

Modelling conventions:
* Python lists of strings become `List String`; in-range indexing
  `receivers[i]` becomes `getE receivers i` (`List.getD` with sentinel `""`;
  every index the source uses is in range, so the sentinel is never read).
* The Python dict `last_year` becomes a function `String → Option String`
  (`dict.get` returns `None` on a missing key).
* `random.shuffle` is modelled by an oracle `shuffles : Nat → List String`
  giving the array produced by the shuffle of attempt `k`; Python's
  `random.shuffle` permutes the list in place, so the oracle's outputs are
  permutations of the participant list (a hypothesis of the theorems).
* Raised exceptions become `Except` / explicit error components.
-/

namespace SecretSanta

/-- In-range list indexing as used throughout the engine (`receivers[i]`,
`names[i]`).  The default `""` is never consulted at the call sites, which
all index below the list's length. -/
def getE (l : List String) (i : Nat) : String := l.getD i ""

/-- `receivers[i], receivers[j] = receivers[j], receivers[i]` — the Python
parallel-assignment swap of two positions. -/
def swapIdx (l : List String) (i j : Nat) : List String :=
  (l.set i (getE l j)).set j (getE l i)

theorem getE_eq_getElem {l : List String} {i : Nat} (h : i < l.length) :
    getE l i = l[i] := by
  simp [getE, List.getD_eq_getElem?_getD, List.getElem?_eq_getElem h]

theorem length_swapIdx (l : List String) (i j : Nat) :
    (swapIdx l i j).length = l.length := by
  simp [swapIdx]

theorem getE_swapIdx_fst {l : List String} {i j : Nat} (hi : i < l.length)
    (hj : j < l.length) : getE (swapIdx l i j) i = getE l j := by
  have hlen : i < (swapIdx l i j).length := by rw [length_swapIdx]; exact hi
  rw [getE_eq_getElem hlen]
  show ((l.set i (getE l j)).set j (getE l i))[i] = getE l j
  rcases eq_or_ne i j with rfl | hne
  · rw [List.getElem_set_self]
  · rw [List.getElem_set_ne (Ne.symm hne), List.getElem_set_self]

theorem getE_swapIdx_snd {l : List String} {i j : Nat} (_hi : i < l.length)
    (hj : j < l.length) : getE (swapIdx l i j) j = getE l i := by
  have hlen : j < (swapIdx l i j).length := by rw [length_swapIdx]; exact hj
  rw [getE_eq_getElem hlen]
  show ((l.set i (getE l j)).set j (getE l i))[j] = getE l i
  rw [List.getElem_set_self]

theorem getE_swapIdx_other {l : List String} {i j k : Nat} (hki : k ≠ i)
    (hkj : k ≠ j) : getE (swapIdx l i j) k = getE l k := by
  rcases Nat.lt_or_ge k l.length with hk | hk
  · have hlen : k < (swapIdx l i j).length := by rw [length_swapIdx]; exact hk
    rw [getE_eq_getElem hlen]
    show ((l.set i (getE l j)).set j (getE l i))[k] = getE l k
    rw [List.getElem_set_ne (fun h => hkj h.symm),
      List.getElem_set_ne (fun h => hki h.symm), getE_eq_getElem hk]
  · have h1 : (swapIdx l i j).length ≤ k := by rw [length_swapIdx]; exact hk
    simp [getE, List.getD_eq_getElem?_getD, List.getElem?_eq_none h1,
      List.getElem?_eq_none hk]

theorem cons_set_perm :
    ∀ (t : List String) (m : Nat) (hm : m < t.length) (b : String),
      (t[m] :: t.set m b).Perm (b :: t)
  | a :: t, 0, _, b => List.Perm.swap b a t
  | a :: t, m + 1, h, b => by
    have hm : m < t.length := Nat.lt_of_succ_lt_succ h
    have ih := cons_set_perm t m hm b
    have e1 : (a :: t)[m + 1] = t[m] := by simp
    have e2 : (a :: t).set (m + 1) b = a :: t.set m b := rfl
    rw [e1, e2]
    exact ((List.Perm.swap a (t[m]) (t.set m b)).trans
      (List.Perm.cons a ih)).trans (List.Perm.swap b a t)

theorem swapIdx_perm :
    ∀ (l : List String) (i j : Nat), i < l.length → j < l.length →
      (swapIdx l i j).Perm l
  | a :: t, 0, 0, _, _ => by
    have e : swapIdx (a :: t) 0 0 = a :: t := rfl
    rw [e]
  | a :: t, 0, m + 1, _, hj => by
    have hm : m < t.length := Nat.lt_of_succ_lt_succ hj
    have e : swapIdx (a :: t) 0 (m + 1) = getE t m :: t.set m a := rfl
    rw [e, getE_eq_getElem hm]
    exact cons_set_perm t m hm a
  | a :: t, m + 1, 0, hi, _ => by
    have hm : m < t.length := Nat.lt_of_succ_lt_succ hi
    have e : swapIdx (a :: t) (m + 1) 0 = getE t m :: t.set m a := rfl
    rw [e, getE_eq_getElem hm]
    exact cons_set_perm t m hm a
  | a :: t, m + 1, k + 1, hi, hj => by
    have hm : m < t.length := Nat.lt_of_succ_lt_succ hi
    have hk : k < t.length := Nat.lt_of_succ_lt_succ hj
    have e : swapIdx (a :: t) (m + 1) (k + 1) = a :: swapIdx t m k := rfl
    rw [e]
    exact List.Perm.cons a (swapIdx_perm t m k hm hk)

/-! ## The assignment engine (`generate_assignments`, lines 104-194)

`names` is the list of employee emails (line 122), `last` the dict
`last_year` (lines 125-130), `r` the working `receivers` array. -/

/-- One step of the self-assignment repair pass (lines 141-144): at index
`i`, if `names[i] == receivers[i]`, swap `receivers[i]` with
`receivers[(i+1) % n]`. -/
def selfRepairStep (names : List String) (r : List String) (i : Nat) :
    List String :=
  if getE names i = getE r i then swapIdx r i ((i + 1) % names.length) else r

/-- The self-assignment repair pass truncated to the first `k` indices
(the state of `receivers` after the loop body has run for
`i = 0, …, k-1`). -/
def selfRepairUpTo (names r : List String) (k : Nat) : List String :=
  (List.range k).foldl (selfRepairStep names) r

/-- Step 1 of each attempt (lines 140-144): the full single forward
self-assignment repair sweep over `i in range(n)`. -/
def selfRepairPass (names r : List String) : List String :=
  selfRepairUpTo names r names.length

/-- The five-fold swap condition of the prior-repeat repair pass
(lines 153-158), checked before swapping `receivers[i]` and
`receivers[j]`. -/
def swapOK (names r : List String) (last : String → Option String)
    (i j : Nat) : Bool :=
  decide (getE names j ≠ getE r j ∧ getE r j ≠ getE names i ∧
    getE r i ≠ getE names j ∧ last (getE names j) ≠ some (getE r i) ∧
    last (getE names i) ≠ some (getE r j))

/-- One step of the prior-repeat repair pass (lines 148-165): at index `i`,
if `last_year.get(names[i]) == receivers[i]`, swap with the first `j`
satisfying `swapOK`; if no such `j` exists the whole attempt is abandoned
(`none`). -/
def priorRepairStep (names : List String) (last : String → Option String)
    (acc : Option (List String)) (i : Nat) : Option (List String) :=
  match acc with
  | none => none
  | some r =>
    if last (getE names i) = some (getE r i) then
      match (List.range names.length).find? (fun j => swapOK names r last i j)
        with
      | some j => some (swapIdx r i j)
      | none => none
    else some r

/-- The prior-repeat repair pass truncated to the first `k` indices. -/
def priorRepairUpTo (names : List String) (last : String → Option String)
    (r : List String) (k : Nat) : Option (List String) :=
  (List.range k).foldl (priorRepairStep names last) (some r)

/-- Step 2 of each attempt (lines 146-165): the full prior-repeat repair
sweep; `none` means the attempt was abandoned
(`valid_assignment = False`). -/
def priorRepairPass (names : List String) (last : String → Option String)
    (r : List String) : Option (List String) :=
  priorRepairUpTo names last r names.length

/-- The final verification scan (lines 168-176): `True` iff no index has a
self-assignment or a repeat of last year's recipient. -/
def finalCheck (names r : List String) (last : String → Option String) :
    Bool :=
  (List.range names.length).all (fun i =>
    decide (getE names i ≠ getE r i ∧
      last (getE names i) ≠ some (getE r i)))

/-- One full shuffle-repair-verify attempt (the body of the loop at
lines 137-191), starting from the already-shuffled `receivers` array
`shuffled`.  `some r` is the receivers array a successful attempt returns;
`none` means the attempt was abandoned (repair impossible or final
verification failed). -/
def attempt (names : List String) (last : String → Option String)
    (shuffled : List String) : Option (List String) :=
  match priorRepairPass names last (selfRepairPass names shuffled) with
  | none => none
  | some r2 => if finalCheck names r2 last then some r2 else none

/-- The attempt budget (line 136: `max_attempts = 100`). -/
def max_attempts : Nat := 100

/-- One step of the retry loop: a later attempt runs only while no earlier
attempt has succeeded. -/
def tryStep (names : List String) (last : String → Option String)
    (shuffles : Nat → List String) (acc : Option (List String)) (k : Nat) :
    Option (List String) :=
  match acc with
  | some r => some r
  | none => attempt names last (shuffles k)

/-- The retry loop over the first `b` attempts; `shuffles k` is the
receivers array produced by `random.shuffle` in attempt `k`. -/
def tryAll (names : List String) (last : String → Option String)
    (shuffles : Nat → List String) (b : Nat) : Option (List String) :=
  (List.range b).foldl (tryStep names last shuffles) none

/-- The search over the full attempt budget (lines 137-191). -/
def searchLoop (names : List String) (last : String → Option String)
    (shuffles : Nat → List String) : Option (List String) :=
  tryAll names last shuffles max_attempts

/-- The two errors `generate_assignments` can raise: `tooFew` is the
`ValueError("Need at least 2 participants")` of line 116, `exhausted` the
`RuntimeError("No valid Secret Santa assignment exists after multiple
attempts.")` of line 194. -/
inductive GenError where
  | tooFew : GenError
  | exhausted : GenError
deriving DecidableEq

/-- The engine-level contract of `generate_assignments`: from the
identifier list and the prior map, either the receivers array of the first
successful attempt or an error. -/
def generate (names : List String) (last : String → Option String)
    (shuffles : Nat → List String) : Except GenError (List String) :=
  if names.length < 2 then Except.error GenError.tooFew
  else
    match searchLoop names last shuffles with
    | some r => Except.ok r
    | none => Except.error GenError.exhausted

/-! ## Records and the model state -/

/-- A validated employee record (a row of the employee CSV after
`load_employees_from_csv` has checked both fields): keys `Employee_Name`
and `Employee_EmailID`. -/
structure Employee where
  Employee_Name : String
  Employee_EmailID : String
deriving DecidableEq

/-- A raw employee CSV row as `csv.DictReader` delivers it: `row.get(key)`
yields `None` when the column is absent. -/
structure EmpRow where
  Employee_Name : Option String
  Employee_EmailID : Option String
deriving DecidableEq

/-- A raw prior-assignment CSV row (`row.get` on the four columns). -/
structure PriorRow where
  Employee_Name : Option String
  Employee_EmailID : Option String
  Secret_Child_Name : Option String
  Secret_Child_EmailID : Option String
deriving DecidableEq

/-- A result record as built at lines 185-190. -/
structure Assignment where
  Employee_Name : String
  Employee_EmailID : String
  Secret_Child_Name : String
  Secret_Child_EmailID : String
deriving DecidableEq

/-- The mutable state of a `SecretSantaModel` object (lines 16-18). -/
structure SecretSantaModel where
  employees : List Employee
  last_year_assignments : List PriorRow
  result : List Assignment
deriving DecidableEq

/-- Python truthiness of an optional string (`if giver and child`,
line 129): present and non-empty. -/
def truthy : Option String → Bool
  | none => false
  | some s => decide (s ≠ "")

/-- The dict `last_year` built at lines 125-130: rows whose giver and
child emails are truthy contribute an entry, a later row for the same
giver overwriting an earlier one. -/
def buildLastYear (rows : List PriorRow) : String → Option String :=
  fun x =>
    match rows.reverse.find? (fun row =>
        truthy row.Employee_EmailID && truthy row.Secret_Child_EmailID &&
        (row.Employee_EmailID == some x)) with
    | some row => row.Secret_Child_EmailID
    | none => none

/-- The dict `email_to_emp` of line 119 (`{e['Employee_EmailID']: e}`),
with a later employee overwriting an earlier one sharing the email.  The
default record stands for Python's `KeyError` and is never consulted at
the call sites, whose keys always occur in the dict. -/
def email_to_emp (employees : List Employee) (x : String) : Employee :=
  match employees.reverse.find? (fun e => e.Employee_EmailID == x) with
  | some e => e
  | none => ⟨"", ""⟩

/-- The result records built on the success path (lines 180-190), pairing
`names[i]` with `receivers[i]` and resolving each through
`email_to_emp`. -/
def buildResult (employees : List Employee) (names receivers : List String) :
    List Assignment :=
  (names.zip receivers).map (fun p =>
    { Employee_Name := (email_to_emp employees p.1).Employee_Name
      Employee_EmailID := (email_to_emp employees p.1).Employee_EmailID
      Secret_Child_Name := (email_to_emp employees p.2).Employee_Name
      Secret_Child_EmailID := (email_to_emp employees p.2).Employee_EmailID })

/-- The identifier list `names` of line 122: the employees' emails, in
order. -/
def emailsOf (m : SecretSantaModel) : List String :=
  m.employees.map (fun e => e.Employee_EmailID)

/-- The method `generate_assignments` (lines 104-194) as a state
transformer: the post-call object state together with the raised error, if
any.  `self.result` is assigned only on the success path (line 180). -/
def generate_assignments (m : SecretSantaModel)
    (shuffles : Nat → List String) : SecretSantaModel × Option GenError :=
  if m.employees.length < 2 then (m, some GenError.tooFew)
  else
    match searchLoop (emailsOf m) (buildLastYear m.last_year_assignments)
        shuffles with
    | some receivers =>
      ({ m with
          result := buildResult m.employees (emailsOf m) receivers }, none)
    | none => (m, some GenError.exhausted)

/-! ## The record loaders (lines 20-102)

The CSV file itself is read by `CSVService.read_csv`; the loaders are
modelled from the parsed row list it returns. -/

/-- The whitespace characters Python's `str.strip()` removes (the ASCII
ones; the embedding ignores the further Unicode space characters, which
none of the claims exercise). -/
def pyWhitespace (c : Char) : Bool :=
  c == ' ' || c == '\t' || c == '\n' || c == '\r' ||
    c == '\x0b' || c == '\x0c'

/-- Python's `s.strip()`: drop whitespace from both ends. -/
def pyStrip (s : String) : String :=
  String.mk (((s.data.dropWhile pyWhitespace).reverse.dropWhile
    pyWhitespace).reverse)

/-- A required field is rejected when missing or blank
(`if not v or not v.strip()`): absent, or stripping to the empty
string. -/
def blank : Option String → Bool
  | none => true
  | some s => decide (pyStrip s = "")

/-- The validation errors the loaders raise, keeping the data of the
message strings: `missingField f i` is `"'f' is missing or empty at row
i."`, `duplicateEmail e i` is `"Duplicate email found: 'e' at row i."`,
`emptyFile` and `notEnough` the messages of lines 35 and 38. -/
inductive LoadError where
  | emptyFile : LoadError
  | notEnough : LoadError
  | missingField : String → Nat → LoadError
  | duplicateEmail : String → Nat → LoadError
deriving DecidableEq

/-- The email a row contributes to the duplicate check (line 43/51): the
raw, unstripped value.  The blank check has already ensured it is present
when the duplicate check runs. -/
def rowEmail (row : EmpRow) : String := row.Employee_EmailID.getD ""

/-- The row loop of `load_employees_from_csv` (lines 41-53): `i` is the
1-based number of the first row of `data`, `seen` the emails of the rows
already processed, in order. -/
def validateEmployees : List EmpRow → Nat → List String → Option LoadError
  | [], _, _ => none
  | row :: rest, i, seen =>
    if blank row.Employee_Name then some (LoadError.missingField "Employee_Name" i)
    else if blank row.Employee_EmailID then
      some (LoadError.missingField "Employee_EmailID" i)
    else if rowEmail row ∈ seen then
      some (LoadError.duplicateEmail (rowEmail row) i)
    else validateEmployees rest (i + 1) (seen ++ [rowEmail row])

/-- `load_employees_from_csv` (lines 20-58) on the parsed row list:
empty-file check, more-than-2 check, then the per-row validation; on
success the rows are stored unchanged (line 55). -/
def load_employees_from_csv (data : List EmpRow) :
    Except LoadError (List EmpRow) :=
  if data.isEmpty then Except.error LoadError.emptyFile
  else if data.length ≤ 2 then Except.error LoadError.notEnough
  else
    match validateEmployees data 1 [] with
    | some e => Except.error e
    | none => Except.ok data

/-- The row loop of `load_last_year_assignments` (lines 81-97): the four
fields are checked in order. -/
def validatePrior : List PriorRow → Nat → Option LoadError
  | [], _ => none
  | row :: rest, i =>
    if blank row.Employee_Name then some (LoadError.missingField "Employee_Name" i)
    else if blank row.Employee_EmailID then
      some (LoadError.missingField "Employee_EmailID" i)
    else if blank row.Secret_Child_Name then
      some (LoadError.missingField "Secret_Child_Name" i)
    else if blank row.Secret_Child_EmailID then
      some (LoadError.missingField "Secret_Child_EmailID" i)
    else validatePrior rest (i + 1)

/-- `load_last_year_assignments` (lines 61-102) together with the
orchestration's optional-path handling (`run`, lines 207-212): an absent
source (`none`, the user skipped the prompt) yields no constraints, an
empty file yields a warning and no constraints (lines 75-79), and a
non-empty file is validated row by row and stored unchanged (line 99). -/
def load_last_year_assignments (source : Option (List PriorRow)) :
    Except LoadError (List PriorRow) :=
  match source with
  | none => Except.ok []
  | some data =>
    if data.isEmpty then Except.ok []
    else
      match validatePrior data 1 with
      | some e => Except.error e
      | none => Except.ok data

/-! ## Basic lemmas about the passes -/

theorem getE_inj {l : List String} (hnd : l.Nodup) {i j : Nat}
    (hi : i < l.length) (hj : j < l.length) (h : getE l i = getE l j) :
    i = j := by
  rw [getE_eq_getElem hi, getE_eq_getElem hj] at h
  exact (List.Nodup.getElem_inj_iff hnd).1 h

theorem swapOK_eq_true_iff {names r : List String}
    {last : String → Option String} {i j : Nat} :
    swapOK names r last i j = true ↔
      (getE names j ≠ getE r j ∧ getE r j ≠ getE names i ∧
        getE r i ≠ getE names j ∧ last (getE names j) ≠ some (getE r i) ∧
        last (getE names i) ≠ some (getE r j)) := by
  simp [swapOK]

theorem finalCheck_eq_true_iff {names r : List String}
    {last : String → Option String} :
    finalCheck names r last = true ↔
      ∀ i, i < names.length →
        getE names i ≠ getE r i ∧ last (getE names i) ≠ some (getE r i) := by
  simp [finalCheck, List.all_eq_true, List.mem_range]

theorem selfRepairUpTo_succ (names r : List String) (k : Nat) :
    selfRepairUpTo names r (k + 1) =
      selfRepairStep names (selfRepairUpTo names r k) k := by
  rw [selfRepairUpTo, List.range_succ, List.foldl_append]
  rfl

theorem selfRepairStep_length (names r : List String) (i : Nat) :
    (selfRepairStep names r i).length = r.length := by
  rw [selfRepairStep]
  split
  · exact length_swapIdx r i ((i + 1) % names.length)
  · rfl

theorem selfRepairUpTo_length (names r : List String) :
    ∀ k, (selfRepairUpTo names r k).length = r.length
  | 0 => rfl
  | k + 1 => by
    rw [selfRepairUpTo_succ, selfRepairStep_length]
    exact selfRepairUpTo_length names r k

theorem selfRepairUpTo_perm (names r : List String)
    (hlen : r.length = names.length) :
    ∀ k, k ≤ names.length → (selfRepairUpTo names r k).Perm r
  | 0, _ => List.Perm.refl r
  | k + 1, hk => by
    have hk' : k ≤ names.length := Nat.le_of_succ_le hk
    have ih := selfRepairUpTo_perm names r hlen k hk'
    have hsl : (selfRepairUpTo names r k).length = names.length := by
      rw [selfRepairUpTo_length]; exact hlen
    rw [selfRepairUpTo_succ, selfRepairStep]
    split
    · have hkn : k < names.length := Nat.lt_of_succ_le hk
      have hn : 0 < names.length := Nat.lt_of_le_of_lt (Nat.zero_le k) hkn
      exact ((swapIdx_perm _ k ((k + 1) % names.length)
        (by rw [hsl]; exact hkn)
        (by rw [hsl]; exact Nat.mod_lt _ hn)).trans ih)
    · exact ih

theorem selfRepairPass_perm (names r : List String)
    (hlen : r.length = names.length) : (selfRepairPass names r).Perm r :=
  selfRepairUpTo_perm names r hlen names.length (Nat.le_refl _)

theorem priorRepairUpTo_succ (names : List String)
    (last : String → Option String) (r : List String) (k : Nat) :
    priorRepairUpTo names last r (k + 1) =
      priorRepairStep names last (priorRepairUpTo names last r k) k := by
  rw [priorRepairUpTo, List.range_succ, List.foldl_append]
  rfl

theorem priorRepairStep_some {names : List String}
    {last : String → Option String} {acc : Option (List String)}
    {k : Nat} {r' : List String}
    (h : priorRepairStep names last acc k = some r') :
    ∃ r, acc = some r := by
  cases acc with
  | none => exact absurd h (by simp [priorRepairStep])
  | some r => exact ⟨r, rfl⟩

theorem priorRepairStep_some_cases {names : List String}
    {last : String → Option String} {r r' : List String} {k : Nat}
    (h : priorRepairStep names last (some r) k = some r') :
    (last (getE names k) ≠ some (getE r k) ∧ r' = r) ∨
      (last (getE names k) = some (getE r k) ∧
        ∃ j, (List.range names.length).find?
            (fun j => swapOK names r last k j) = some j ∧
          r' = swapIdx r k j) := by
  rw [priorRepairStep] at h
  by_cases htrig : last (getE names k) = some (getE r k)
  · rw [if_pos htrig] at h
    cases hfind : (List.range names.length).find?
        (fun j => swapOK names r last k j) with
    | none => rw [hfind] at h; exact absurd h (by simp)
    | some j =>
      rw [hfind] at h
      refine Or.inr ⟨htrig, j, rfl, ?_⟩
      exact (Option.some_inj.1 h).symm
  · rw [if_neg htrig] at h
    exact Or.inl ⟨htrig, (Option.some_inj.1 h).symm⟩

theorem priorRepairUpTo_perm (names : List String)
    (last : String → Option String) (r : List String)
    (hlen : r.length = names.length) :
    ∀ k, k ≤ names.length → ∀ r',
      priorRepairUpTo names last r k = some r' → r'.Perm r
  | 0, _, r', h => by
    have : r' = r := Option.some_inj.1 h.symm ▸ rfl
    rw [show r' = r from (Option.some_inj.1 h).symm]
  | k + 1, hk, r', h => by
    rw [priorRepairUpTo_succ] at h
    obtain ⟨r1, hr1⟩ := priorRepairStep_some h
    rw [hr1] at h
    have ih := priorRepairUpTo_perm names last r hlen k
      (Nat.le_of_succ_le hk) r1 hr1
    have hl1 : r1.length = names.length := by
      rw [ih.length_eq]; exact hlen
    rcases priorRepairStep_some_cases h with ⟨_, rfl⟩ | ⟨_, j, hfind, rfl⟩
    · exact ih
    · have hj : j < names.length := by
        have := List.mem_of_find?_eq_some hfind
        exact List.mem_range.1 this
      have hkn : k < names.length := Nat.lt_of_succ_le hk
      exact (swapIdx_perm r1 k j (by rw [hl1]; exact hkn)
        (by rw [hl1]; exact hj)).trans ih

theorem priorRepairPass_perm {names : List String}
    {last : String → Option String} {r r2 : List String}
    (hlen : r.length = names.length)
    (h : priorRepairPass names last r = some r2) : r2.Perm r :=
  priorRepairUpTo_perm names last r hlen names.length (Nat.le_refl _) r2 h

/-! ## The self-assignment repair pass clears every self-assignment

For distinct names and a permutation as the shuffled input, after the loop
body has run for indices `0 … k-1` none of the positions `0 … k-1` is
self-assigned; a triggered swap moves `names[i]` to position
`(i+1) % n ≠ i`, which cannot be a self-assignment there, and the one
position a later step can still revisit (position `0`, at the wrap-around
swap of the last step) receives `names[n-1] ≠ names[0]`. -/

theorem selfRepair_invariant (names r : List String) (hnd : names.Nodup)
    (hr : r.Perm names) (h2 : 2 ≤ names.length) :
    ∀ k, k ≤ names.length → ∀ i, i < k →
      getE names i ≠ getE (selfRepairUpTo names r k) i
  | 0, _, i, hik => absurd hik (Nat.not_lt_zero i)
  | k + 1, hk, i, hik => by
    have hk' : k ≤ names.length := Nat.le_of_succ_le hk
    have hkn : k < names.length := Nat.lt_of_succ_le hk
    have hlen : r.length = names.length := hr.length_eq
    have hsp : (selfRepairUpTo names r k).Perm names :=
      (selfRepairUpTo_perm names r hlen k hk').trans hr
    have hslen : (selfRepairUpTo names r k).length = names.length :=
      hsp.length_eq
    have hsnd : (selfRepairUpTo names r k).Nodup := hsp.nodup_iff.2 hnd
    rw [selfRepairUpTo_succ, selfRepairStep]
    split
    case isTrue htrig =>
      have hn0 : 0 < names.length := by omega
      have hjn : (k + 1) % names.length < names.length := Nat.mod_lt _ hn0
      have hjk : (k + 1) % names.length ≠ k := by
        by_cases hlt : k + 1 < names.length
        · have : (k + 1) % names.length = k + 1 := Nat.mod_eq_of_lt hlt
          omega
        · have hkk : k + 1 = names.length := by omega
          have : (k + 1) % names.length = 0 := by rw [hkk, Nat.mod_self]
          omega
      rcases Nat.lt_or_ge i k with hik' | hik2
      · by_cases hij : i = (k + 1) % names.length
        · rw [hij, getE_swapIdx_snd (by rw [hslen]; exact hkn)
            (by rw [hslen]; exact hjn), ← htrig]
          intro heq
          exact hjk (getE_inj hnd hjn hkn heq)
        · have hik3 : i ≠ k := by omega
          rw [getE_swapIdx_other hik3 hij]
          exact selfRepair_invariant names r hnd hr h2 k hk' i hik'
      · have hike : i = k := by omega
        subst hike
        rw [getE_swapIdx_fst (by rw [hslen]; exact hkn)
          (by rw [hslen]; exact hjn)]
        intro heq
        have h' : getE (selfRepairUpTo names r i) ((i + 1) % names.length) =
            getE (selfRepairUpTo names r i) i := by rw [← heq, htrig]
        exact hjk (getE_inj hsnd (by rw [hslen]; exact hjn)
          (by rw [hslen]; exact hkn) h')
    case isFalse htrig =>
      rcases Nat.lt_or_ge i k with hik' | hik2
      · exact selfRepair_invariant names r hnd hr h2 k hk' i hik'
      · have hike : i = k := by omega
        subst hike
        exact htrig

/-- For distinct names (n ≥ 2) and a permutation as input, the single
forward self-assignment repair sweep leaves no self-assignment at any
index. -/
theorem selfRepairPass_noSelf {names r : List String} (hnd : names.Nodup)
    (hr : r.Perm names) (h2 : 2 ≤ names.length) :
    ∀ i, i < names.length →
      getE names i ≠ getE (selfRepairPass names r) i :=
  fun i hi =>
    selfRepair_invariant names r hnd hr h2 names.length (Nat.le_refl _) i hi

/-! ## A completed prior-repeat pass always passes the final verification

Every swap the prior-repeat pass performs is guarded by the five-fold
condition, which guarantees that afterwards neither of the two touched
positions is self-assigned or repeats last year's recipient; positions the
pass has already cleared are only ever modified through such guarded
swaps.  Hence if the pass completes (starting from a state with no
self-assignment, which step 1 guarantees), the final verification of
lines 167-176 cannot fail. -/

theorem priorRepair_invariant (names r : List String)
    (last : String → Option String) (hlen : r.length = names.length)
    (hns : ∀ i, i < names.length → getE names i ≠ getE r i) :
    ∀ k, k ≤ names.length → ∀ r',
      priorRepairUpTo names last r k = some r' →
      (∀ i, i < names.length → getE names i ≠ getE r' i) ∧
      (∀ i, i < k → last (getE names i) ≠ some (getE r' i))
  | 0, _, r', h => by
    rw [show r' = r from (Option.some_inj.1 h).symm]
    exact ⟨hns, fun i hi => absurd hi (Nat.not_lt_zero i)⟩
  | k + 1, hk, r', h => by
    rw [priorRepairUpTo_succ] at h
    obtain ⟨r1, hr1⟩ := priorRepairStep_some h
    rw [hr1] at h
    have hk' : k ≤ names.length := Nat.le_of_succ_le hk
    have hkn : k < names.length := Nat.lt_of_succ_le hk
    obtain ⟨ih_ns, ih_pr⟩ :=
      priorRepair_invariant names r last hlen hns k hk' r1 hr1
    have hperm1 : r1.Perm r :=
      priorRepairUpTo_perm names last r hlen k hk' r1 hr1
    have hl1 : r1.length = names.length := by
      rw [hperm1.length_eq]; exact hlen
    rcases priorRepairStep_some_cases h with ⟨htrig, rfl⟩ |
      ⟨htrig, j, hfind, rfl⟩
    · refine ⟨ih_ns, fun i hi => ?_⟩
      rcases Nat.lt_or_ge i k with h1 | h2
      · exact ih_pr i h1
      · have : i = k := by omega
        subst this
        exact htrig
    · have hjn : j < names.length :=
        List.mem_range.1 (List.mem_of_find?_eq_some hfind)
      obtain ⟨c1, c2, c3, c4, c5⟩ := swapOK_eq_true_iff.1
        (List.find?_some hfind)
      have hkl : k < r1.length := by rw [hl1]; exact hkn
      have hjl : j < r1.length := by rw [hl1]; exact hjn
      constructor
      · intro i hi
        by_cases hik : i = k
        · subst hik
          rw [getE_swapIdx_fst hkl hjl]
          exact fun hcontra => c2 hcontra.symm
        · by_cases hij : i = j
          · subst hij
            rw [getE_swapIdx_snd hkl hjl]
            exact fun hcontra => c3 hcontra.symm
          · rw [getE_swapIdx_other hik hij]
            exact ih_ns i hi
      · intro i hi
        by_cases hik : i = k
        · subst hik
          rw [getE_swapIdx_fst hkl hjl]
          exact c5
        · by_cases hij : i = j
          · subst hij
            rw [getE_swapIdx_snd hkl hjl]
            exact c4
          · rw [getE_swapIdx_other hik hij]
            exact ih_pr i (by omega)

/-- If the receivers array entering the prior-repeat pass has no
self-assignment and the pass completes every index, the final verification
succeeds. -/
theorem priorRepairPass_finalCheck {names r r2 : List String}
    {last : String → Option String} (hlen : r.length = names.length)
    (hns : ∀ i, i < names.length → getE names i ≠ getE r i)
    (h : priorRepairPass names last r = some r2) :
    finalCheck names r2 last = true := by
  obtain ⟨a, b⟩ := priorRepair_invariant names r last hlen hns
    names.length (Nat.le_refl _) r2 h
  exact finalCheck_eq_true_iff.2 (fun i hi => ⟨a i hi, b i hi⟩)

/-! ## Attempts and the retry loop -/

theorem attempt_eq_some {names shuffled r2 : List String}
    {last : String → Option String}
    (h : attempt names last shuffled = some r2) :
    priorRepairPass names last (selfRepairPass names shuffled) = some r2 ∧
      finalCheck names r2 last = true := by
  rw [attempt] at h
  split at h
  next heq => exact absurd h (by simp)
  next r3 heq =>
    split at h
    next hf =>
      rw [← Option.some_inj.1 h]
      exact ⟨heq, hf⟩
    next hf => exact absurd h (by simp)

/-- A successful attempt returns a permutation of `names` whenever the
shuffle it started from is one. -/
theorem attempt_perm {names shuffled r2 : List String}
    {last : String → Option String} (hsh : shuffled.Perm names)
    (h : attempt names last shuffled = some r2) : r2.Perm names := by
  have hlen : shuffled.length = names.length := hsh.length_eq
  have h1 : (selfRepairPass names shuffled).Perm names :=
    (selfRepairPass_perm names shuffled hlen).trans hsh
  have h2 : (selfRepairPass names shuffled).length = names.length :=
    h1.length_eq
  exact ((priorRepairPass_perm h2 (attempt_eq_some h).1).trans h1)

/-- With an empty prior map the prior-repeat pass never triggers and
returns its input unchanged. -/
theorem priorRepairUpTo_empty (names r : List String) :
    ∀ k, priorRepairUpTo names (fun _ => none) r k = some r
  | 0 => rfl
  | k + 1 => by
    rw [priorRepairUpTo_succ, priorRepairUpTo_empty names r k,
      priorRepairStep]
    simp

theorem tryAll_succ (names : List String) (last : String → Option String)
    (shuffles : Nat → List String) (b : Nat) :
    tryAll names last shuffles (b + 1) =
      tryStep names last shuffles (tryAll names last shuffles b) b := by
  rw [tryAll, List.range_succ, List.foldl_append]
  rfl

theorem tryAll_none_of (names : List String)
    (last : String → Option String) (shuffles : Nat → List String) :
    ∀ b, (∀ k, k < b → attempt names last (shuffles k) = none) →
      tryAll names last shuffles b = none
  | 0, _ => rfl
  | b + 1, h => by
    rw [tryAll_succ,
      tryAll_none_of names last shuffles b
        (fun k hk => h k (Nat.lt_succ_of_lt hk))]
    exact h b (Nat.lt_succ_self b)

theorem tryAll_none_elim (names : List String)
    (last : String → Option String) (shuffles : Nat → List String) :
    ∀ b, tryAll names last shuffles b = none →
      ∀ k, k < b → attempt names last (shuffles k) = none
  | b + 1, h, k, hk => by
    rw [tryAll_succ] at h
    cases htb : tryAll names last shuffles b with
    | some r =>
      rw [htb] at h
      exact absurd (h : some r = none) (fun hh => Option.noConfusion hh)
    | none =>
      rw [htb] at h
      rcases Nat.lt_or_ge k b with h1 | h2
      · exact tryAll_none_elim names last shuffles b htb k h1
      · have : k = b := by omega
        subst this
        exact h

theorem tryAll_some_elim (names : List String)
    (last : String → Option String) (shuffles : Nat → List String) :
    ∀ b r, tryAll names last shuffles b = some r →
      ∃ k, k < b ∧ attempt names last (shuffles k) = some r ∧
        ∀ k', k' < k → attempt names last (shuffles k') = none
  | b + 1, r, h => by
    rw [tryAll_succ] at h
    cases htb : tryAll names last shuffles b with
    | some r0 =>
      rw [htb] at h
      obtain ⟨k, hk, hs, hprev⟩ :=
        tryAll_some_elim names last shuffles b r0 htb
      rw [← Option.some_inj.1 (h : some r0 = some r)]
      exact ⟨k, Nat.lt_succ_of_lt hk, hs, hprev⟩
    | none =>
      rw [htb] at h
      exact ⟨b, Nat.lt_succ_self b, h,
        tryAll_none_elim names last shuffles b htb⟩

theorem tryAll_some_intro (names : List String)
    (last : String → Option String) (shuffles : Nat → List String) :
    ∀ b k r, k < b → attempt names last (shuffles k) = some r →
      (∀ k', k' < k → attempt names last (shuffles k') = none) →
      tryAll names last shuffles b = some r
  | b + 1, k, r, hk, hs, hprev => by
    rw [tryAll_succ]
    rcases Nat.lt_or_ge k b with h1 | h2
    · rw [tryAll_some_intro names last shuffles b k r h1 hs hprev]
      rfl
    · have hkb : k = b := by omega
      rw [hkb] at hs hprev
      rw [tryAll_none_of names last shuffles b hprev]
      exact hs

/-- `generate` succeeds with `r` exactly when some attempt inside the
budget succeeds with `r` and every earlier attempt was abandoned: an
abandoned attempt is not a failure of the call, the engine just moves on
to the next attempt. -/
theorem generate_ok_iff {names : List String}
    {last : String → Option String} {shuffles : Nat → List String}
    {r : List String} (h2 : 2 ≤ names.length) :
    generate names last shuffles = Except.ok r ↔
      ∃ k, k < max_attempts ∧ attempt names last (shuffles k) = some r ∧
        ∀ k', k' < k → attempt names last (shuffles k') = none := by
  rw [generate, if_neg (by omega)]
  constructor
  · intro h
    cases hs : searchLoop names last shuffles with
    | none =>
      rw [hs] at h
      exact absurd (h : Except.error GenError.exhausted = Except.ok r)
        (by simp)
    | some r0 =>
      rw [hs] at h
      have hr0 : r0 = r := Except.ok.inj h
      subst hr0
      exact tryAll_some_elim names last shuffles max_attempts r0 hs
  · intro ⟨k, hk, hs, hprev⟩
    rw [show searchLoop names last shuffles = some r from
      tryAll_some_intro names last shuffles max_attempts k r hk hs hprev]

/-- `generate` raises the exhaustion error exactly when the precondition
holds but every one of the `max_attempts` attempts fails. -/
theorem generate_exhausted_iff {names : List String}
    {last : String → Option String} {shuffles : Nat → List String} :
    generate names last shuffles = Except.error GenError.exhausted ↔
      2 ≤ names.length ∧
        ∀ k, k < max_attempts → attempt names last (shuffles k) = none := by
  rw [generate]
  by_cases h2 : names.length < 2
  · rw [if_pos h2]
    constructor
    · intro h
      exact absurd h (by simp)
    · intro ⟨h, _⟩
      omega
  · rw [if_neg h2]
    constructor
    · intro h
      cases hs : searchLoop names last shuffles with
      | some r0 => rw [hs] at h; exact absurd h (by simp)
      | none =>
        exact ⟨by omega,
          tryAll_none_elim names last shuffles max_attempts hs⟩
    · intro ⟨_, hall⟩
      rw [show searchLoop names last shuffles = none from
        tryAll_none_of names last shuffles max_attempts hall]

/-! ## Result-record construction -/

theorem email_to_emp_email {emps : List Employee} {x : String}
    (hx : ∃ e ∈ emps, e.Employee_EmailID = x) :
    (email_to_emp emps x).Employee_EmailID = x := by
  rw [email_to_emp]
  cases hfind : emps.reverse.find? (fun e => e.Employee_EmailID == x) with
  | some e =>
    have := List.find?_some hfind
    simpa using this
  | none =>
    obtain ⟨e, he, hex⟩ := hx
    have := List.find?_eq_none.1 hfind e (List.mem_reverse.2 he)
    simp [hex] at this

theorem buildResult_length (emps : List Employee) (names recv : List String)
    (hlen : recv.length = names.length) :
    (buildResult emps names recv).length = names.length := by
  simp [buildResult, hlen]

theorem buildResult_map_giver (emps : List Employee)
    (names recv : List String) (hlen : recv.length = names.length)
    (hmem : ∀ x ∈ names, ∃ e ∈ emps, e.Employee_EmailID = x) :
    (buildResult emps names recv).map (fun a => a.Employee_EmailID) =
      names := by
  apply List.ext_getElem
  · simp [buildResult, hlen]
  · intro i h1 h2
    simp only [buildResult, List.getElem_map, List.getElem_zip]
    exact email_to_emp_email (hmem names[i] (List.getElem_mem h2))

theorem buildResult_map_child (emps : List Employee)
    (names recv : List String) (hlen : recv.length = names.length)
    (hmem : ∀ x ∈ recv, ∃ e ∈ emps, e.Employee_EmailID = x) :
    (buildResult emps names recv).map (fun a => a.Secret_Child_EmailID) =
      recv := by
  apply List.ext_getElem
  · simp [buildResult, hlen]
  · intro i h1 h2
    simp only [buildResult, List.getElem_map, List.getElem_zip]
    exact email_to_emp_email (hmem recv[i] (List.getElem_mem h2))

/-! ## Unfolding `generate_assignments` -/

theorem generate_assignments_ok {m : SecretSantaModel}
    {shuffles : Nat → List String}
    (h : (generate_assignments m shuffles).2 = none) :
    2 ≤ m.employees.length ∧
      ∃ recv, searchLoop (emailsOf m)
          (buildLastYear m.last_year_assignments) shuffles = some recv ∧
        (generate_assignments m shuffles).1 =
          { m with result := buildResult m.employees (emailsOf m) recv } := by
  rw [generate_assignments] at *
  by_cases h2 : m.employees.length < 2
  · rw [if_pos h2] at h
    exact absurd h (by simp)
  · rw [if_neg h2] at h ⊢
    cases hs : searchLoop (emailsOf m) (buildLastYear m.last_year_assignments)
        shuffles with
    | none => rw [hs] at h; exact absurd h (by simp)
    | some recv => exact ⟨by omega, recv, rfl, rfl⟩

theorem generate_assignments_error {m : SecretSantaModel}
    {shuffles : Nat → List String} {e : GenError}
    (h : (generate_assignments m shuffles).2 = some e) :
    (generate_assignments m shuffles).1 = m := by
  rw [generate_assignments]
  by_cases h2 : m.employees.length < 2
  · rw [if_pos h2]
  · rw [if_neg h2]
    cases hs : searchLoop (emailsOf m) (buildLastYear m.last_year_assignments)
        shuffles with
    | none => rfl
    | some recv =>
      rw [generate_assignments, if_neg h2, hs] at h
      exact absurd h (by simp)

/-! ## Claim theorems -/

/-- C6: for every participant list with fewer than 2 entries,
`generate_assignments` fails with the too-few-participants precondition
error (line 116); the outcome does not depend on the shuffle oracle (no
shuffle and no attempt is performed), and this error is distinct from the
search-exhaustion error. -/
theorem C6_too_few_participants (m : SecretSantaModel)
    (shuffles : Nat → List String) (h : m.employees.length < 2) :
    (generate_assignments m shuffles).2 = some GenError.tooFew ∧
      (∀ shuffles', generate_assignments m shuffles =
        generate_assignments m shuffles') ∧
      GenError.tooFew ≠ GenError.exhausted := by
  refine ⟨?_, ?_, by simp⟩
  · rw [generate_assignments, if_pos h]
  · intro shuffles'
    rw [generate_assignments, if_pos h, generate_assignments, if_pos h]

theorem C6_witness :
    (generate_assignments ⟨[⟨"n1", "a"⟩], [], []⟩ (fun _ => [])).2 =
        some GenError.tooFew ∧
      (∀ shuffles', generate_assignments ⟨[⟨"n1", "a"⟩], [], []⟩
          (fun _ => []) =
        generate_assignments ⟨[⟨"n1", "a"⟩], [], []⟩ shuffles') ∧
      GenError.tooFew ≠ GenError.exhausted :=
  C6_too_few_participants ⟨[⟨"n1", "a"⟩], [], []⟩ (fun _ => []) (by decide)

/-- C10: whenever `generate_assignments` raises an error (too few
participants or search exhaustion), the stored result list is left
unchanged from its value before the call; `self.result` is assigned only
on the success path (line 180). -/
theorem C10_result_unchanged_on_error (m : SecretSantaModel)
    (shuffles : Nat → List String) (e : GenError)
    (h : (generate_assignments m shuffles).2 = some e) :
    (generate_assignments m shuffles).1.result = m.result := by
  rw [generate_assignments_error h]

theorem C10_witness :
    (generate_assignments ⟨[⟨"n1", "a"⟩], [],
        [⟨"x", "x", "y", "y"⟩]⟩ (fun _ => [])).1.result =
      [⟨"x", "x", "y", "y"⟩] :=
  C10_result_unchanged_on_error ⟨[⟨"n1", "a"⟩], [], [⟨"x", "x", "y", "y"⟩]⟩
    (fun _ => []) GenError.tooFew (by rfl)

/-- C2: for at least 2 distinct identifiers and an empty prior map,
`generate` succeeds for every sequence of shuffles the attempts draw
(each a permutation of `names`, as `random.shuffle` guarantees): the
self-assignment repair pass of the very first attempt already clears
every self-assignment, the prior-repeat pass never triggers, and the
final verification passes. -/
theorem C2_empty_prior_succeeds (names : List String)
    (shuffles : Nat → List String) (h2 : 2 ≤ names.length)
    (hnd : names.Nodup) (hsh : ∀ k, (shuffles k).Perm names) :
    ∃ r, generate names (fun _ => none) shuffles = Except.ok r ∧
      finalCheck names r (fun _ => none) = true := by
  have hns : ∀ i, i < names.length →
      getE names i ≠ getE (selfRepairPass names (shuffles 0)) i :=
    selfRepairPass_noSelf hnd (hsh 0) h2
  have hfc : finalCheck names (selfRepairPass names (shuffles 0))
      (fun _ => none) = true :=
    finalCheck_eq_true_iff.2 (fun i hi => ⟨hns i hi, by simp⟩)
  have hprior : priorRepairPass names (fun _ => none)
      (selfRepairPass names (shuffles 0)) =
      some (selfRepairPass names (shuffles 0)) :=
    priorRepairUpTo_empty names (selfRepairPass names (shuffles 0))
      names.length
  have hatt : attempt names (fun _ => none) (shuffles 0) =
      some (selfRepairPass names (shuffles 0)) := by
    rw [attempt, hprior]
    simp [hfc]
  have hsearch : searchLoop names (fun _ => none) shuffles =
      some (selfRepairPass names (shuffles 0)) :=
    tryAll_some_intro names (fun _ => none) shuffles max_attempts 0 _
      (by decide) hatt (fun k' hk' => absurd hk' (Nat.not_lt_zero k'))
  refine ⟨selfRepairPass names (shuffles 0), ?_, hfc⟩
  rw [generate, if_neg (by omega), hsearch]

theorem C2_witness :
    ∃ r, generate ["a", "b"] (fun _ => none) (fun _ => ["a", "b"]) =
        Except.ok r ∧
      finalCheck ["a", "b"] r (fun _ => none) = true :=
  C2_empty_prior_succeeds ["a", "b"] (fun _ => ["a", "b"]) (by decide)
    (by decide) (fun _ => List.Perm.refl _)

/-- C1: whenever `generate_assignments` returns successfully (participants
with unique non-empty emails, any prior-assignment list, shuffles that are
permutations as `random.shuffle` guarantees), the stored result satisfies:
the giver emails are exactly `names` in order, the recipient emails are a
permutation of the giver emails, and at every index the recipient email
differs from `names[i]` and from the prior map's entry for `names[i]`. -/
theorem C1_success_postconditions (m : SecretSantaModel)
    (shuffles : Nat → List String) (_hnd : (emailsOf m).Nodup)
    (_hne : ∀ e ∈ m.employees, e.Employee_EmailID ≠ "")
    (hsh : ∀ k, (shuffles k).Perm (emailsOf m))
    (hok : (generate_assignments m shuffles).2 = none) :
    ((generate_assignments m shuffles).1.result.map
        (fun a => a.Employee_EmailID) = emailsOf m) ∧
      ((generate_assignments m shuffles).1.result.map
          (fun a => a.Secret_Child_EmailID)).Perm
        ((generate_assignments m shuffles).1.result.map
          (fun a => a.Employee_EmailID)) ∧
      (∀ i, i < (emailsOf m).length →
        getE ((generate_assignments m shuffles).1.result.map
            (fun a => a.Secret_Child_EmailID)) i ≠ getE (emailsOf m) i ∧
          buildLastYear m.last_year_assignments (getE (emailsOf m) i) ≠
            some (getE ((generate_assignments m shuffles).1.result.map
              (fun a => a.Secret_Child_EmailID)) i)) := by
  obtain ⟨h2, recv, hsearch, hstate⟩ := generate_assignments_ok hok
  obtain ⟨k, hk, hatt, hprev⟩ :=
    tryAll_some_elim _ _ _ _ _ hsearch
  have hperm : recv.Perm (emailsOf m) := attempt_perm (hsh k) hatt
  have hlen : recv.length = (emailsOf m).length := hperm.length_eq
  have hfc := (attempt_eq_some hatt).2
  have hmemn : ∀ x ∈ emailsOf m, ∃ e ∈ m.employees,
      e.Employee_EmailID = x := by
    intro x hx
    obtain ⟨e, he, hex⟩ := List.mem_map.1 hx
    exact ⟨e, he, hex⟩
  have hmemr : ∀ x ∈ recv, ∃ e ∈ m.employees, e.Employee_EmailID = x :=
    fun x hx => hmemn x (hperm.mem_iff.1 hx)
  have hres : (generate_assignments m shuffles).1.result =
      buildResult m.employees (emailsOf m) recv := by
    rw [hstate]
  rw [hres, buildResult_map_giver _ _ _ hlen hmemn,
    buildResult_map_child _ _ _ hlen hmemr]
  refine ⟨rfl, hperm, fun i hi => ?_⟩
  have hprops := finalCheck_eq_true_iff.1 hfc i hi
  exact ⟨Ne.symm hprops.1, hprops.2⟩

theorem C1_witness :
    (generate_assignments ⟨[⟨"n1", "a"⟩, ⟨"n2", "b"⟩], [], []⟩
        (fun _ => ["b", "a"])).1.result.map (fun a => a.Employee_EmailID) =
      emailsOf ⟨[⟨"n1", "a"⟩, ⟨"n2", "b"⟩], [], []⟩ :=
  (C1_success_postconditions ⟨[⟨"n1", "a"⟩, ⟨"n2", "b"⟩], [], []⟩
    (fun _ => ["b", "a"]) (by decide) (by decide)
    (fun _ => (by decide : (["b", "a"] : List String).Perm
      (emailsOf ⟨[⟨"n1", "a"⟩, ⟨"n2", "b"⟩], [], []⟩))) (by rfl)).1

/-- The adversarial prior map of the n=3 exhaustion scenario: together
with the no-self-assignment constraint it forbids both derangements of
three participants. -/
def priorMap3 : String → Option String := fun x =>
  if x = "a" then some "b" else if x = "b" then some "a" else none

/-- On the adversarial n=3 instance every attempt fails, whatever
permutation the shuffle produced. -/
theorem attempt_priorMap3_none (recv : List String)
    (h : recv.Perm ["a", "b", "c"]) :
    attempt ["a", "b", "c"] priorMap3 recv = none := by
  have hmem : recv ∈ (["a", "b", "c"] : List String).permutations' :=
    List.mem_permutations'.2 h
  fin_cases hmem <;> rfl

/-- `generate` returns a result only via an attempt that passed the final
verification. -/
theorem generate_ok_finalCheck {names : List String}
    {last : String → Option String} {shuffles : Nat → List String}
    {r : List String} (h : generate names last shuffles = Except.ok r) :
    finalCheck names r last = true ∧
      ∃ k, k < max_attempts ∧ attempt names last (shuffles k) = some r := by
  by_cases h2 : names.length < 2
  · rw [generate, if_pos h2] at h
    exact absurd h (by simp)
  · obtain ⟨k, hk, hatt, _⟩ := (generate_ok_iff (by omega)).1 h
    exact ⟨(attempt_eq_some hatt).2, k, hk, hatt⟩

/-- C5: if no attempt succeeds, the engine performs exactly
`max_attempts = 100` shuffle-repair-verify attempts and then raises the
exhaustion error; it never loops beyond the bound (a success always comes
from an attempt inside the budget) and never returns a result that fails
the verification scan; in particular, on the n=3 input whose prior map
forbids every non-self option, it raises the exhaustion error for every
sequence of shuffles. -/
theorem C5_exhaustion_bound :
    max_attempts = 100 ∧
      (∀ (names : List String) (last : String → Option String)
        (shuffles : Nat → List String), 2 ≤ names.length →
        (∀ k, k < max_attempts → attempt names last (shuffles k) = none) →
        generate names last shuffles = Except.error GenError.exhausted) ∧
      (∀ (names : List String) (last : String → Option String)
        (shuffles : Nat → List String) (r : List String),
        generate names last shuffles = Except.ok r →
        finalCheck names r last = true ∧
          ∃ k, k < max_attempts ∧ attempt names last (shuffles k) = some r) ∧
      (∀ shuffles : Nat → List String,
        (∀ k, (shuffles k).Perm ["a", "b", "c"]) →
        generate ["a", "b", "c"] priorMap3 shuffles =
          Except.error GenError.exhausted) := by
  refine ⟨rfl, ?_, ?_, ?_⟩
  · intro names last shuffles h2 hall
    exact generate_exhausted_iff.2 ⟨h2, hall⟩
  · intro names last shuffles r h
    exact generate_ok_finalCheck h
  · intro shuffles hsh
    exact generate_exhausted_iff.2 ⟨by decide,
      fun k _ => attempt_priorMap3_none (shuffles k) (hsh k)⟩

theorem C5_witness :
    generate ["a", "b", "c"] priorMap3 (fun _ => ["a", "b", "c"]) =
      Except.error GenError.exhausted :=
  C5_exhaustion_bound.2.2.2 (fun _ => ["a", "b", "c"])
    (fun _ => List.Perm.refl _)

/-- Transcription of the spec's wording of the prior-repeat repair pass,
for comparison with `priorRepairPass` (which is embedded from the code):
"for each index i in order, if `priorMap[names[i]] == receivers[i]`,
search for some other index j (in order, first match wins)" satisfying the
five listed conditions; "if found, perform the swap and continue to the
next i; if no such j exists for this i, abandon the attempt". -/
def priorRepairSpecGo (names : List String)
    (last : String → Option String) :
    List Nat → List String → Option (List String)
  | [], r => some r
  | i :: rest, r =>
    if last (getE names i) = some (getE r i) then
      match (List.range names.length).find?
          (fun j => swapOK names r last i j) with
      | some j => priorRepairSpecGo names last rest (swapIdx r i j)
      | none => none
    else priorRepairSpecGo names last rest r

/-- The spec's prior-repeat repair pass over all indices in order. -/
def priorRepairSpec (names : List String) (last : String → Option String)
    (r : List String) : Option (List String) :=
  priorRepairSpecGo names last (List.range names.length) r

theorem foldl_priorRepairStep_none (names : List String)
    (last : String → Option String) :
    ∀ idxs : List Nat,
      idxs.foldl (priorRepairStep names last) none = none
  | [] => rfl
  | _ :: rest => foldl_priorRepairStep_none names last rest

theorem foldl_priorRepairStep_eq_specGo (names : List String)
    (last : String → Option String) :
    ∀ (idxs : List Nat) (r : List String),
      idxs.foldl (priorRepairStep names last) (some r) =
        priorRepairSpecGo names last idxs r
  | [], r => rfl
  | i :: rest, r => by
    rw [List.foldl_cons, priorRepairSpecGo]
    show rest.foldl (priorRepairStep names last)
      (priorRepairStep names last (some r) i) = _
    rw [priorRepairStep]
    by_cases htrig : last (getE names i) = some (getE r i)
    · rw [if_pos htrig, if_pos htrig]
      cases hfind : (List.range names.length).find?
          (fun j => swapOK names r last i j) with
      | some j =>
        exact foldl_priorRepairStep_eq_specGo names last rest (swapIdx r i j)
      | none => exact foldl_priorRepairStep_none names last rest
    · rw [if_neg htrig, if_neg htrig]
      exact foldl_priorRepairStep_eq_specGo names last rest r

/-- C7: the prior-repeat repair pass of the code coincides with the spec's
description (indices in order, first matching `j` under the five
conditions, abandonment when none exists), an abandoned pass abandons the
attempt, and an abandoned attempt is not a failure of the call: `generate`
returns `r` exactly when the first non-abandoned attempt in the budget
returns `r`, all earlier attempts having been abandoned. -/
theorem C7_prior_repeat_pass_spec :
    (∀ (names : List String) (last : String → Option String)
      (r : List String),
      priorRepairPass names last r = priorRepairSpec names last r) ∧
      (∀ (names : List String) (last : String → Option String)
        (shuffled : List String),
        priorRepairPass names last (selfRepairPass names shuffled) = none →
        attempt names last shuffled = none) ∧
      (∀ (names : List String) (last : String → Option String)
        (shuffles : Nat → List String) (r : List String),
        2 ≤ names.length →
        (generate names last shuffles = Except.ok r ↔
          ∃ k, k < max_attempts ∧
            attempt names last (shuffles k) = some r ∧
            ∀ k', k' < k → attempt names last (shuffles k') = none)) := by
  refine ⟨?_, ?_, ?_⟩
  · intro names last r
    exact foldl_priorRepairStep_eq_specGo names last
      (List.range names.length) r
  · intro names last shuffled h
    rw [attempt, h]
  · intro names last shuffles r h2
    exact generate_ok_iff h2

theorem C7_witness :
    priorRepairPass ["a", "b"] (fun _ => none) ["b", "a"] =
        priorRepairSpec ["a", "b"] (fun _ => none) ["b", "a"] ∧
      (generate ["a", "b"] (fun _ => none) (fun _ => ["b", "a"]) =
          Except.ok ["b", "a"] ↔
        ∃ k, k < max_attempts ∧
          attempt ["a", "b"] (fun _ => none)
            ((fun _ => ["b", "a"]) k) = some ["b", "a"] ∧
          ∀ k', k' < k → attempt ["a", "b"] (fun _ => none)
            ((fun _ => ["b", "a"]) k') = none) :=
  ⟨C7_prior_repeat_pass_spec.1 ["a", "b"] (fun _ => none) ["b", "a"],
    C7_prior_repeat_pass_spec.2.2 ["a", "b"] (fun _ => none)
      (fun _ => ["b", "a"]) ["b", "a"] (by decide)⟩

/-- A triggered swap of the self-assignment repair pass never creates a
self-assignment at `(i+1) % n` that was not already there: the value it
moves to `(i+1) % n` is `names[i]`, which for distinct names cannot equal
`names[(i+1) % n]` unless the two indices coincide — and then the swap
changes nothing. -/
theorem swap_no_new_self {names s : List String} (hnd : names.Nodup)
    (hs : s.Perm names) {i : Nat} (hi : i < names.length)
    (htrig : getE names i = getE s i)
    (hafter : getE (swapIdx s i ((i + 1) % names.length))
        ((i + 1) % names.length) = getE names ((i + 1) % names.length)) :
    getE s ((i + 1) % names.length) =
      getE names ((i + 1) % names.length) := by
  have hslen : s.length = names.length := hs.length_eq
  have hn0 : 0 < names.length := by omega
  have hjn : (i + 1) % names.length < names.length := Nat.mod_lt _ hn0
  by_cases hij : (i + 1) % names.length = i
  · rw [hij]
    rw [hij, getE_swapIdx_fst (by rw [hslen]; exact hi)
      (by rw [hslen]; exact hi)] at hafter
    exact hafter
  · rw [getE_swapIdx_snd (by rw [hslen]; exact hi)
      (by rw [hslen]; exact hjn), ← htrig] at hafter
    exact absurd (getE_inj hnd hi hjn hafter).symm hij

/-- C3 counterexample: there is no execution of the self-assignment repair
pass — no list of distinct names, no starting permutation and no index —
in which the triggered swap at index `i` turns a non-self-assigned
position `(i+1) % n` into a self-assigned one (let alone one surviving to
the end of the pass). -/
theorem C3_counterexample :
    ¬ ∃ (names r : List String) (i : Nat), names.Nodup ∧ r.Perm names ∧
      i < names.length ∧
      getE names i = getE (selfRepairUpTo names r i) i ∧
      getE (selfRepairUpTo names r i) ((i + 1) % names.length) ≠
        getE names ((i + 1) % names.length) ∧
      getE (swapIdx (selfRepairUpTo names r i) i ((i + 1) % names.length))
          ((i + 1) % names.length) =
        getE names ((i + 1) % names.length) ∧
      getE (selfRepairPass names r) ((i + 1) % names.length) =
        getE names ((i + 1) % names.length) := by
  rintro ⟨names, r, i, hnd, hperm, hi, htrig, hbefore, hafter, _⟩
  have hsperm : (selfRepairUpTo names r i).Perm names :=
    (selfRepairUpTo_perm names r hperm.length_eq i (Nat.le_of_lt hi)).trans
      hperm
  exact hbefore (swap_no_new_self hnd hsperm hi htrig hafter)

/-- C3 amended: for every list of distinct names (n ≥ 2) and every
starting permutation, the single forward self-assignment repair sweep
leaves no self-assignment at any index, and in particular a triggered
swap at index `i` never introduces a new self-assignment at
`(i+1) % n` — the pass needs no fixed-point iteration to end
self-assignment-free. -/
theorem C3_amended_no_new_self (names r : List String) (hnd : names.Nodup)
    (hr : r.Perm names) (h2 : 2 ≤ names.length) :
    (∀ i, i < names.length →
      getE names i ≠ getE (selfRepairPass names r) i) ∧
      (∀ i, i < names.length →
        getE names i = getE (selfRepairUpTo names r i) i →
        getE (swapIdx (selfRepairUpTo names r i) i
            ((i + 1) % names.length)) ((i + 1) % names.length) =
          getE names ((i + 1) % names.length) →
        getE (selfRepairUpTo names r i) ((i + 1) % names.length) =
          getE names ((i + 1) % names.length)) := by
  refine ⟨selfRepairPass_noSelf hnd hr h2, fun i hi htrig hafter => ?_⟩
  have hsperm : (selfRepairUpTo names r i).Perm names :=
    (selfRepairUpTo_perm names r hr.length_eq i (Nat.le_of_lt hi)).trans hr
  exact swap_no_new_self hnd hsperm hi htrig hafter

theorem C3_witness :
    (∀ i, i < (["a", "b"] : List String).length →
      getE ["a", "b"] i ≠ getE (selfRepairPass ["a", "b"] ["b", "a"]) i) ∧
      (∀ i, i < (["a", "b"] : List String).length →
        getE ["a", "b"] i = getE (selfRepairUpTo ["a", "b"] ["b", "a"] i) i →
        getE (swapIdx (selfRepairUpTo ["a", "b"] ["b", "a"] i) i
            ((i + 1) % (["a", "b"] : List String).length))
          ((i + 1) % (["a", "b"] : List String).length) =
          getE ["a", "b"] ((i + 1) % (["a", "b"] : List String).length) →
        getE (selfRepairUpTo ["a", "b"] ["b", "a"] i)
            ((i + 1) % (["a", "b"] : List String).length) =
          getE ["a", "b"] ((i + 1) % (["a", "b"] : List String).length)) :=
  C3_amended_no_new_self ["a", "b"] ["b", "a"] (by decide) (by decide)
    (by decide)

/-- C4 counterexample: there is no engine attempt — no distinct names with
n ≥ 2, no prior map, no shuffle — in which the prior-repeat repair pass
completes every index and yet the final verification pass finds a
self-assignment or prior-repeat: the Verified-Invalid outcome of the
spec's state machine is unreachable. -/
theorem C4_counterexample :
    ¬ ∃ (names shuffled : List String) (last : String → Option String)
        (r2 : List String), 2 ≤ names.length ∧ names.Nodup ∧
      shuffled.Perm names ∧
      priorRepairPass names last (selfRepairPass names shuffled) =
        some r2 ∧
      finalCheck names r2 last = false := by
  rintro ⟨names, shuffled, last, r2, h2, hnd, hperm, hpass, hfc⟩
  have hlen : (selfRepairPass names shuffled).length = names.length :=
    ((selfRepairPass_perm names shuffled hperm.length_eq).trans
      hperm).length_eq
  have hns := selfRepairPass_noSelf hnd hperm h2
  rw [priorRepairPass_finalCheck hlen hns hpass] at hfc
  exact Bool.noConfusion hfc

/-- C4 amended: in every attempt on distinct names (n ≥ 2) whose shuffle
is a permutation, if the prior-repeat repair pass completes every index
without abandoning, the final verification pass necessarily succeeds —
the attempt is accepted, never abandoned at verification. -/
theorem C4_amended_verification_passes (names shuffled : List String)
    (last : String → Option String) (r2 : List String)
    (h2 : 2 ≤ names.length) (hnd : names.Nodup)
    (hsh : shuffled.Perm names)
    (hpass : priorRepairPass names last (selfRepairPass names shuffled) =
      some r2) :
    finalCheck names r2 last = true := by
  have hlen : (selfRepairPass names shuffled).length = names.length :=
    ((selfRepairPass_perm names shuffled hsh.length_eq).trans
      hsh).length_eq
  exact priorRepairPass_finalCheck hlen (selfRepairPass_noSelf hnd hsh h2)
    hpass

theorem C4_witness :
    finalCheck ["a", "b"] ["b", "a"] (fun _ => none) = true :=
  C4_amended_verification_passes ["a", "b"] ["b", "a"] (fun _ => none)
    ["b", "a"] (by decide) (by decide) (by decide) (by rfl)

/-! ## Employee-loader validation -/

theorem validateEmployees_eq_none_iff :
    ∀ (data : List EmpRow) (s : Nat) (seen : List String),
      validateEmployees data s seen = none ↔
        ((∀ row ∈ data, blank row.Employee_Name = false ∧
            blank row.Employee_EmailID = false) ∧
          (data.map rowEmail).Nodup ∧
          ∀ e ∈ data.map rowEmail, e ∉ seen)
  | [], s, seen => by simp [validateEmployees]
  | row :: rest, s, seen => by
    rw [validateEmployees]
    by_cases h1 : blank row.Employee_Name = true
    · rw [if_pos h1]
      simp [h1]
    · rw [if_neg h1]
      have h1' : blank row.Employee_Name = false := by
        simpa using h1
      by_cases h2 : blank row.Employee_EmailID = true
      · rw [if_pos h2]
        simp [h2]
      · rw [if_neg h2]
        have h2' : blank row.Employee_EmailID = false := by
          simpa using h2
        by_cases h3 : rowEmail row ∈ seen
        · rw [if_pos h3]
          constructor
          · intro h
            exact absurd h (by simp)
          · intro ⟨_, _, hc⟩
            exact absurd (hc (rowEmail row) (by simp)) (by simpa using h3)
        · rw [if_neg h3]
          rw [validateEmployees_eq_none_iff rest (s + 1)
            (seen ++ [rowEmail row])]
          constructor
          · intro ⟨ha, hb, hc⟩
            refine ⟨?_, ?_, ?_⟩
            · intro r' hr'
              rcases List.mem_cons.1 hr' with rfl | hm
              · exact ⟨h1', h2'⟩
              · exact ha r' hm
            · rw [List.map_cons, List.nodup_cons]
              refine ⟨fun hmem => ?_, hb⟩
              have := hc (rowEmail row) hmem
              simp at this
            · intro e he
              rw [List.map_cons] at he
              rcases List.mem_cons.1 he with rfl | hm
              · exact h3
              · have := hc e hm
                simp at this
                exact this.1
          · intro ⟨ha, hb, hc⟩
            rw [List.map_cons, List.nodup_cons] at hb
            refine ⟨fun r' hr' => ha r' (List.mem_cons_of_mem row hr'),
              hb.2, ?_⟩
            intro e he
            simp only [List.mem_append, List.mem_singleton, not_or]
            constructor
            · refine hc e ?_
              rw [List.map_cons]
              exact List.mem_cons_of_mem _ he
            · intro hee
              exact hb.1 (hee ▸ he)

theorem validateEmployees_missingField :
    ∀ (data : List EmpRow) (s : Nat) (seen : List String) (f : String)
      (i : Nat),
      validateEmployees data s seen = some (LoadError.missingField f i) →
      s ≤ i ∧ i < s + data.length ∧
        ((f = "Employee_Name" ∧
            blank (data.getD (i - s) ⟨none, none⟩).Employee_Name = true) ∨
          (f = "Employee_EmailID" ∧
            blank (data.getD (i - s) ⟨none, none⟩).Employee_EmailID = true))
  | [], s, seen, f, i, h => by simp [validateEmployees] at h
  | row :: rest, s, seen, f, i, h => by
    rw [validateEmployees] at h
    by_cases h1 : blank row.Employee_Name = true
    · rw [if_pos h1] at h
      simp only [Option.some_inj, LoadError.missingField.injEq] at h
      obtain ⟨hf, hi⟩ := h
      subst hf
      subst hi
      refine ⟨Nat.le_refl s, by simp, Or.inl ⟨rfl, ?_⟩⟩
      rw [Nat.sub_self]
      exact h1
    · rw [if_neg h1] at h
      by_cases h2 : blank row.Employee_EmailID = true
      · rw [if_pos h2] at h
        simp only [Option.some_inj, LoadError.missingField.injEq] at h
        obtain ⟨hf, hi⟩ := h
        subst hf
        subst hi
        refine ⟨Nat.le_refl s, by simp, Or.inr ⟨rfl, ?_⟩⟩
        rw [Nat.sub_self]
        exact h2
      · rw [if_neg h2] at h
        by_cases h3 : rowEmail row ∈ seen
        · rw [if_pos h3] at h
          simp at h
        · rw [if_neg h3] at h
          obtain ⟨ha, hb, hc⟩ := validateEmployees_missingField rest (s + 1)
            (seen ++ [rowEmail row]) f i h
          refine ⟨by omega, by simp; omega, ?_⟩
          have hsub : i - s = (i - (s + 1)) + 1 := by omega
          rw [hsub]
          simpa [List.getD_cons_succ] using hc

theorem validateEmployees_duplicate :
    ∀ (data : List EmpRow) (s : Nat) (seen : List String) (em : String)
      (i : Nat),
      validateEmployees data s seen = some (LoadError.duplicateEmail em i) →
      s ≤ i ∧ i < s + data.length ∧
        rowEmail (data.getD (i - s) ⟨none, none⟩) = em ∧
        (em ∈ seen ∨
          ∃ t, t < i - s ∧ rowEmail (data.getD t ⟨none, none⟩) = em)
  | [], s, seen, em, i, h => by simp [validateEmployees] at h
  | row :: rest, s, seen, em, i, h => by
    rw [validateEmployees] at h
    by_cases h1 : blank row.Employee_Name = true
    · rw [if_pos h1] at h
      simp at h
    · rw [if_neg h1] at h
      by_cases h2 : blank row.Employee_EmailID = true
      · rw [if_pos h2] at h
        simp at h
      · rw [if_neg h2] at h
        by_cases h3 : rowEmail row ∈ seen
        · rw [if_pos h3] at h
          simp only [Option.some_inj, LoadError.duplicateEmail.injEq] at h
          obtain ⟨hem, hi⟩ := h
          subst hem
          subst hi
          refine ⟨Nat.le_refl s, by simp, ?_, Or.inl h3⟩
          rw [Nat.sub_self]
          rfl
        · rw [if_neg h3] at h
          obtain ⟨ha, hb, hc, hd⟩ := validateEmployees_duplicate rest
            (s + 1) (seen ++ [rowEmail row]) em i h
          have hsub : i - s = (i - (s + 1)) + 1 := by omega
          refine ⟨by omega, by simp; omega, ?_, ?_⟩
          · rw [hsub]
            simpa [List.getD_cons_succ] using hc
          · rcases hd with hseen | ⟨t, ht, hrow⟩
            · rcases List.mem_append.1 hseen with hs' | hs''
              · exact Or.inl hs'
              · refine Or.inr ⟨0, by omega, ?_⟩
                simpa using (List.mem_singleton.1 hs'').symm
            · refine Or.inr ⟨t + 1, by omega, ?_⟩
              simpa [List.getD_cons_succ] using hrow

/-- C8: loading participants fails exactly when the source is empty, has
2 or fewer records, has a record with a missing or blank name or email,
or has a duplicate (raw) email; a missing-field error names the offending
field and the 1-based data-row number, and a duplicate email is reported
with the later row's number, the same email occurring at an earlier
row. -/
theorem C8_employee_loader (data : List EmpRow) :
    (load_employees_from_csv data = Except.ok data ∨
      ∃ e, load_employees_from_csv data = Except.error e) ∧
      (load_employees_from_csv data = Except.ok data ↔
        (data ≠ [] ∧ 2 < data.length ∧
          (∀ row ∈ data, blank row.Employee_Name = false ∧
            blank row.Employee_EmailID = false) ∧
          (data.map rowEmail).Nodup)) ∧
      (∀ f i, load_employees_from_csv data =
          Except.error (LoadError.missingField f i) →
        1 ≤ i ∧ i ≤ data.length ∧
          ((f = "Employee_Name" ∧
              blank (data.getD (i - 1) ⟨none, none⟩).Employee_Name =
                true) ∨
            (f = "Employee_EmailID" ∧
              blank (data.getD (i - 1) ⟨none, none⟩).Employee_EmailID =
                true))) ∧
      (∀ em i, load_employees_from_csv data =
          Except.error (LoadError.duplicateEmail em i) →
        1 ≤ i ∧ i ≤ data.length ∧
          rowEmail (data.getD (i - 1) ⟨none, none⟩) = em ∧
          ∃ t, 1 ≤ t ∧ t < i ∧
            rowEmail (data.getD (t - 1) ⟨none, none⟩) = em) := by
  rw [load_employees_from_csv]
  by_cases hemp : data.isEmpty = true
  · have hnil : data = [] := List.isEmpty_iff.1 hemp
    subst hnil
    rw [if_pos hemp]
    refine ⟨Or.inr ⟨LoadError.emptyFile, rfl⟩, ?_, ?_, ?_⟩
    · constructor
      · intro h
        exact absurd h (by simp)
      · intro ⟨h, _⟩
        exact absurd rfl h
    · intro f i h
      exact absurd h (by simp)
    · intro em i h
      exact absurd h (by simp)
  · rw [if_neg hemp]
    have hne : data ≠ [] := by simpa [List.isEmpty_iff] using hemp
    by_cases hlen : data.length ≤ 2
    · rw [if_pos hlen]
      refine ⟨Or.inr ⟨LoadError.notEnough, rfl⟩, ?_, ?_, ?_⟩
      · constructor
        · intro h
          exact absurd h (by simp)
        · intro ⟨_, h2, _⟩
          omega
      · intro f i h
        exact absurd h (by simp)
      · intro em i h
        exact absurd h (by simp)
    · rw [if_neg hlen]
      cases hv : validateEmployees data 1 [] with
      | some e =>
        refine ⟨Or.inr ⟨e, rfl⟩, ?_, ?_, ?_⟩
        · constructor
          · intro h
            exact absurd h (by simp)
          · intro ⟨_, _, hrows, hnd⟩
            have hnone : validateEmployees data 1 [] = none :=
              (validateEmployees_eq_none_iff data 1 []).2
                ⟨hrows, hnd, by simp⟩
            rw [hv] at hnone
            exact absurd hnone (by simp)
        · intro f i h
          have he : e = LoadError.missingField f i := Except.error.inj h
          subst he
          obtain ⟨h1, h2i, h3⟩ :=
            validateEmployees_missingField data 1 [] f i hv
          exact ⟨h1, by omega, h3⟩
        · intro em i h
          have he : e = LoadError.duplicateEmail em i := Except.error.inj h
          subst he
          obtain ⟨h1, h2i, h3, h4⟩ :=
            validateEmployees_duplicate data 1 [] em i hv
          refine ⟨h1, by omega, h3, ?_⟩
          rcases h4 with habs | ⟨t, ht, hrow⟩
          · exact absurd habs (by simp)
          · exact ⟨t + 1, by omega, by omega, by simpa using hrow⟩
      | none =>
        obtain ⟨hrows, hnd, _⟩ :=
          (validateEmployees_eq_none_iff data 1 []).1 hv
        refine ⟨Or.inl rfl, ?_, ?_, ?_⟩
        · exact ⟨fun _ => ⟨hne, by omega, hrows, hnd⟩, fun _ => rfl⟩
        · intro f i h
          exact absurd h (by simp)
        · intro em i h
          exact absurd h (by simp)

/-- A participant source with a duplicated email, used to exercise the
duplicate-rejection path. -/
def empRows3 : List EmpRow :=
  [⟨some "x", some "a"⟩, ⟨some "y", some "b"⟩, ⟨some "z", some "a"⟩]

theorem C8_witness :
    1 ≤ 3 ∧ 3 ≤ empRows3.length ∧
      rowEmail (empRows3.getD (3 - 1) ⟨none, none⟩) = "a" ∧
      ∃ t, 1 ≤ t ∧ t < 3 ∧
        rowEmail (empRows3.getD (t - 1) ⟨none, none⟩) = "a" :=
  (C8_employee_loader empRows3).2.2.2 "a" 3 (by rfl)

/-! ## Prior-assignment-loader validation -/

theorem validatePrior_eq_none_iff :
    ∀ (data : List PriorRow) (s : Nat),
      validatePrior data s = none ↔
        ∀ row ∈ data, blank row.Employee_Name = false ∧
          blank row.Employee_EmailID = false ∧
          blank row.Secret_Child_Name = false ∧
          blank row.Secret_Child_EmailID = false
  | [], s => by simp [validatePrior]
  | row :: rest, s => by
    rw [validatePrior]
    by_cases h1 : blank row.Employee_Name = true
    · rw [if_pos h1]
      simp [h1]
    · rw [if_neg h1]
      by_cases h2 : blank row.Employee_EmailID = true
      · rw [if_pos h2]
        simp [h2]
      · rw [if_neg h2]
        by_cases h3 : blank row.Secret_Child_Name = true
        · rw [if_pos h3]
          simp [h3]
        · rw [if_neg h3]
          by_cases h4 : blank row.Secret_Child_EmailID = true
          · rw [if_pos h4]
            simp [h4]
          · rw [if_neg h4]
            rw [validatePrior_eq_none_iff rest (s + 1)]
            constructor
            · intro h r' hr'
              rcases List.mem_cons.1 hr' with rfl | hm
              · exact ⟨by simpa using h1, by simpa using h2,
                  by simpa using h3, by simpa using h4⟩
              · exact h r' hm
            · intro h r' hr'
              exact h r' (List.mem_cons_of_mem row hr')

theorem validatePrior_missingField :
    ∀ (data : List PriorRow) (s : Nat) (f : String) (i : Nat),
      validatePrior data s = some (LoadError.missingField f i) →
      s ≤ i ∧ i < s + data.length ∧
        ((f = "Employee_Name" ∧
            blank ((data.getD (i - s)
              ⟨none, none, none, none⟩).Employee_Name) = true) ∨
          (f = "Employee_EmailID" ∧
            blank ((data.getD (i - s)
              ⟨none, none, none, none⟩).Employee_EmailID) = true) ∨
          (f = "Secret_Child_Name" ∧
            blank ((data.getD (i - s)
              ⟨none, none, none, none⟩).Secret_Child_Name) = true) ∨
          (f = "Secret_Child_EmailID" ∧
            blank ((data.getD (i - s)
              ⟨none, none, none, none⟩).Secret_Child_EmailID) = true))
  | [], s, f, i, h => by simp [validatePrior] at h
  | row :: rest, s, f, i, h => by
    rw [validatePrior] at h
    by_cases h1 : blank row.Employee_Name = true
    · rw [if_pos h1] at h
      simp only [Option.some_inj, LoadError.missingField.injEq] at h
      obtain ⟨hf, hi⟩ := h
      subst hf
      subst hi
      refine ⟨Nat.le_refl s, by simp, Or.inl ⟨rfl, ?_⟩⟩
      rw [Nat.sub_self]
      exact h1
    · rw [if_neg h1] at h
      by_cases h2 : blank row.Employee_EmailID = true
      · rw [if_pos h2] at h
        simp only [Option.some_inj, LoadError.missingField.injEq] at h
        obtain ⟨hf, hi⟩ := h
        subst hf
        subst hi
        refine ⟨Nat.le_refl s, by simp, Or.inr (Or.inl ⟨rfl, ?_⟩)⟩
        rw [Nat.sub_self]
        exact h2
      · rw [if_neg h2] at h
        by_cases h3 : blank row.Secret_Child_Name = true
        · rw [if_pos h3] at h
          simp only [Option.some_inj, LoadError.missingField.injEq] at h
          obtain ⟨hf, hi⟩ := h
          subst hf
          subst hi
          refine ⟨Nat.le_refl s, by simp, Or.inr (Or.inr (Or.inl
            ⟨rfl, ?_⟩))⟩
          rw [Nat.sub_self]
          exact h3
        · rw [if_neg h3] at h
          by_cases h4 : blank row.Secret_Child_EmailID = true
          · rw [if_pos h4] at h
            simp only [Option.some_inj, LoadError.missingField.injEq] at h
            obtain ⟨hf, hi⟩ := h
            subst hf
            subst hi
            refine ⟨Nat.le_refl s, by simp, Or.inr (Or.inr (Or.inr
              ⟨rfl, ?_⟩))⟩
            rw [Nat.sub_self]
            exact h4
          · rw [if_neg h4] at h
            obtain ⟨ha, hb, hc⟩ := validatePrior_missingField rest (s + 1)
              f i h
            refine ⟨by omega, by simp; omega, ?_⟩
            have hsub : i - s = (i - (s + 1)) + 1 := by omega
            rw [hsub]
            simpa [List.getD_cons_succ] using hc

theorem validatePrior_some_missing :
    ∀ (data : List PriorRow) (s : Nat) (e : LoadError),
      validatePrior data s = some e →
      ∃ f i, e = LoadError.missingField f i
  | [], s, e, h => by simp [validatePrior] at h
  | row :: rest, s, e, h => by
    rw [validatePrior] at h
    by_cases h1 : blank row.Employee_Name = true
    · rw [if_pos h1] at h
      exact ⟨"Employee_Name", s, (Option.some_inj.1 h).symm⟩
    · rw [if_neg h1] at h
      by_cases h2 : blank row.Employee_EmailID = true
      · rw [if_pos h2] at h
        exact ⟨"Employee_EmailID", s, (Option.some_inj.1 h).symm⟩
      · rw [if_neg h2] at h
        by_cases h3 : blank row.Secret_Child_Name = true
        · rw [if_pos h3] at h
          exact ⟨"Secret_Child_Name", s, (Option.some_inj.1 h).symm⟩
        · rw [if_neg h3] at h
          by_cases h4 : blank row.Secret_Child_EmailID = true
          · rw [if_pos h4] at h
            exact ⟨"Secret_Child_EmailID", s, (Option.some_inj.1 h).symm⟩
          · rw [if_neg h4] at h
            exact validatePrior_some_missing rest (s + 1) e h

/-- C9: loading prior assignments from an absent source (prompt skipped)
or an empty source yields an empty sequence without an error; a non-empty
source fails exactly when some record has one of the four fields missing
or blank, every failure is a row-identified missing-field error, and an
error names the offending 1-based row and field; otherwise all records
are returned. -/
theorem C9_prior_loader :
    load_last_year_assignments none = Except.ok [] ∧
      load_last_year_assignments (some []) = Except.ok [] ∧
      ∀ data : List PriorRow, data ≠ [] →
        ((load_last_year_assignments (some data) = Except.ok data ↔
          ∀ row ∈ data, blank row.Employee_Name = false ∧
            blank row.Employee_EmailID = false ∧
            blank row.Secret_Child_Name = false ∧
            blank row.Secret_Child_EmailID = false) ∧
          (load_last_year_assignments (some data) = Except.ok data ∨
            ∃ f i, load_last_year_assignments (some data) =
              Except.error (LoadError.missingField f i)) ∧
          (∀ f i, load_last_year_assignments (some data) =
              Except.error (LoadError.missingField f i) →
            1 ≤ i ∧ i ≤ data.length ∧
              ((f = "Employee_Name" ∧
                  blank ((data.getD (i - 1)
                    ⟨none, none, none, none⟩).Employee_Name) = true) ∨
                (f = "Employee_EmailID" ∧
                  blank ((data.getD (i - 1)
                    ⟨none, none, none, none⟩).Employee_EmailID) = true) ∨
                (f = "Secret_Child_Name" ∧
                  blank ((data.getD (i - 1)
                    ⟨none, none, none, none⟩).Secret_Child_Name) =
                    true) ∨
                (f = "Secret_Child_EmailID" ∧
                  blank ((data.getD (i - 1)
                    ⟨none, none, none,
                      none⟩).Secret_Child_EmailID) = true)))) := by
  refine ⟨rfl, rfl, ?_⟩
  intro data hne
  have hef : ¬data.isEmpty = true := by simpa [List.isEmpty_iff] using hne
  have hload : load_last_year_assignments (some data) =
      (if data.isEmpty then Except.ok []
        else match validatePrior data 1 with
          | some e => Except.error e
          | none => Except.ok data) := rfl
  rw [hload, if_neg hef]
  cases hv : validatePrior data 1 with
  | some e =>
    obtain ⟨f, i, rfl⟩ := validatePrior_some_missing data 1 e hv
    refine ⟨?_, Or.inr ⟨f, i, rfl⟩, ?_⟩
    · constructor
      · intro h
        exact absurd h (by simp)
      · intro hall
        have hnone : validatePrior data 1 = none :=
          (validatePrior_eq_none_iff data 1).2 hall
        rw [hv] at hnone
        exact absurd hnone (by simp)
    · intro f' i' h
      have he : LoadError.missingField f i = LoadError.missingField f' i' :=
        Except.error.inj h
      simp only [LoadError.missingField.injEq] at he
      obtain ⟨hf, hi⟩ := he
      subst hf
      subst hi
      obtain ⟨h1, h2, h3⟩ := validatePrior_missingField data 1 f i hv
      exact ⟨h1, by omega, h3⟩
  | none =>
    refine ⟨⟨fun _ => (validatePrior_eq_none_iff data 1).1 hv,
      fun _ => rfl⟩, Or.inl rfl, ?_⟩
    intro f i h
    exact absurd h (by simp)

/-- A prior-assignment source whose single row is missing the recipient
email. -/
def priorRows1 : List PriorRow := [⟨some "x", some "a", some "y", none⟩]

theorem C9_witness :
    1 ≤ 1 ∧ 1 ≤ priorRows1.length ∧
      ((("Secret_Child_EmailID" : String) = "Employee_Name" ∧
          blank ((priorRows1.getD (1 - 1)
            ⟨none, none, none, none⟩).Employee_Name) = true) ∨
        (("Secret_Child_EmailID" : String) = "Employee_EmailID" ∧
          blank ((priorRows1.getD (1 - 1)
            ⟨none, none, none, none⟩).Employee_EmailID) = true) ∨
        (("Secret_Child_EmailID" : String) = "Secret_Child_Name" ∧
          blank ((priorRows1.getD (1 - 1)
            ⟨none, none, none, none⟩).Secret_Child_Name) = true) ∨
        (("Secret_Child_EmailID" : String) = "Secret_Child_EmailID" ∧
          blank ((priorRows1.getD (1 - 1)
            ⟨none, none, none, none⟩).Secret_Child_EmailID) = true)) :=
  (C9_prior_loader.2.2 priorRows1 (by simp [priorRows1])).2.2
    "Secret_Child_EmailID" 1 (by rfl)

end SecretSanta
